import Mathlib

/-!
Verification development for the shannon-scanner synchronization core.

The embedding covers:
* the scan store (`src/web/db.ts`): rows, `getScan`, `createScan`, `updateScan`
  with field-presence patches, `listScans`;
* the orchestrator (Temporal) client (`src/web/temporal-client.ts`): the lazy,
  deduplicated connection state machine, and `queryWorkflowProgress`;
* the reconciliation routes (`src/web/routes/scans.ts`): `formatScan`, the
  create route, the per-scan sync route and the sync-all route.

Stores are lists of rows in rowid (insertion) order.  ISO-8601 timestamp
strings are embedded as naturals (the string comparison used by SQLite on the
fixed-width ISO format is order-isomorphic to the instants themselves).
JSON-serialised columns (`completed_agents`, `summary`) are embedded by their
parsed values, since every read re-parses exactly what the writer serialised.
-/

namespace Shannon

/-- Scan status column.  The column is TEXT in SQLite; every writer in the
code stores one of these four words (`'pending'` at insert, `'running'` and
`'failed'` in the create route, and the progress status — typed
`'running' | 'completed' | 'failed'` — in the sync routes). -/
inductive Status where
  | pending
  | running
  | completed
  | failed
deriving DecidableEq, Repr

/-- Summary aggregate reported by the orchestrator
(`temporal-client.ts`, interface `WorkflowProgress.summary`).  The numeric
fields are embedded as integers; no synchronization logic inspects them. -/
structure Summary where
  totalCostUsd : Int
  totalDurationMs : Int
  totalTurns : Int
  agentCount : Int
deriving DecidableEq, Repr

/-- One row of the `scans` table (`db.ts`, interface `ScanRow`).
Nullable TEXT columns are `Option String`; timestamps are naturals. -/
structure ScanRow where
  id : String
  workflow_id : Option String
  target_url : String
  repo_path : String
  config_path : Option String
  status : Status
  current_phase : Option String
  current_agent : Option String
  completed_agents : List String
  error : Option String
  created_at : Nat
  updated_at : Nat
  summary : Option Summary
deriving DecidableEq, Repr

/-- The scans table: rows in rowid (insertion) order, oldest first. -/
abbrev Store := List ScanRow

/-- `getScan` (`db.ts`): `SELECT * FROM scans WHERE id = ?`, first match. -/
def getScan : Store → String → Option ScanRow
  | [], _ => none
  | r :: rest, id => if r.id = id then some r else getScan rest id

/-- `CreateScanInput` (`db.ts`). -/
structure CreateScanInput where
  targetUrl : String
  repoPath : String
  configPath : Option String := none
deriving DecidableEq, Repr

/-- `createScan` (`db.ts`): INSERT of a fresh row with status `'pending'`,
`completed_agents = '[]'`, `created_at = updated_at = now`, then
`return getScan(id)!`.  The generated `crypto.randomUUID()` and the clock
read `new Date().toISOString()` are passed in as `freshId` and `now`.
The non-null assertion `!` is embedded by `Option.getD` with the inserted
row; under a fresh id the lookup provably returns exactly that row.
`newScanRow` is the record the INSERT statement writes. -/
def newScanRow (freshId : String) (now : Nat)
    (input : CreateScanInput) : ScanRow :=
  { id := freshId
    workflow_id := none
    target_url := input.targetUrl
    repo_path := input.repoPath
    config_path := input.configPath
    status := Status.pending
    current_phase := none
    current_agent := none
    completed_agents := []
    error := none
    created_at := now
    updated_at := now
    summary := none }

def createScan (store : Store) (freshId : String) (now : Nat)
    (input : CreateScanInput) : Store × ScanRow :=
  let row := newScanRow freshId now input
  let store1 := store ++ [row]
  (store1, (getScan store1 freshId).getD row)

/-- `UpdateScanInput` (`db.ts`).  A TypeScript field that may be
`undefined` (absent) is an outer `Option`; a nullable field value is an
inner `Option`, so `some none` is an explicit `null` and `none` is an
absent field. -/
structure UpdateScanInput where
  workflowId : Option String := none
  status : Option Status := none
  currentPhase : Option (Option String) := none
  currentAgent : Option (Option String) := none
  completedAgents : Option (List String) := none
  error : Option (Option String) := none
  summary : Option (Option Summary) := none
deriving DecidableEq, Repr

/-- True when no field of the patch is specified — in `updateScan` this is
the `fields.length === 0` early-return case. -/
def UpdateScanInput.isEmpty (p : UpdateScanInput) : Prop :=
  p.workflowId = none ∧ p.status = none ∧ p.currentPhase = none ∧
  p.currentAgent = none ∧ p.completedAgents = none ∧ p.error = none ∧
  p.summary = none

instance (p : UpdateScanInput) : Decidable p.isEmpty := by
  unfold UpdateScanInput.isEmpty; infer_instance

/-- The effect of the dynamically built `UPDATE scans SET ...` statement on
the row it matches: each present field overwrites its column, and
`updated_at = ?` is appended with the clock read `now`
(`db.ts`, `updateScan`). -/
def applyPatch (r : ScanRow) (p : UpdateScanInput) (now : Nat) : ScanRow :=
  { r with
    workflow_id := match p.workflowId with
      | some w => some w
      | none => r.workflow_id
    status := p.status.getD r.status
    current_phase := p.currentPhase.getD r.current_phase
    current_agent := p.currentAgent.getD r.current_agent
    completed_agents := p.completedAgents.getD r.completed_agents
    error := p.error.getD r.error
    summary := p.summary.getD r.summary
    updated_at := now }

/-- `updateScan` (`db.ts`): with no field specified it performs no write and
returns `getScan(id)`; otherwise it runs the UPDATE (touching exactly the
rows whose `id` matches — at most one, as `id` is the primary key) and
returns `getScan(id)` of the written table. -/
def updateScan (store : Store) (id : String) (p : UpdateScanInput)
    (now : Nat) : Store × Option ScanRow :=
  if p.isEmpty then (store, getScan store id)
  else
    let store1 := store.map (fun r => if r.id = id then applyPatch r p now else r)
    (store1, getScan store1 id)

/-- Insertion step of the order-embedding of
`SELECT * FROM scans ORDER BY created_at DESC` (`db.ts`, `listScans`):
a row scanned earlier (smaller rowid) is inserted in front of the first
already-placed row whose key is not larger.  Rows with strictly larger
`created_at` come first; the relative order of equal keys follows the scan
(insertion) order.  SQLite itself leaves the order of equal keys undefined,
so only the sortedness and permutation facts below are forced by the source;
the tie order of this executable model is one admissible choice. -/
def insertDesc (x : ScanRow) : List ScanRow → List ScanRow
  | [] => [x]
  | y :: ys => if x.created_at < y.created_at then y :: insertDesc x ys
               else x :: y :: ys

/-- `listScans` (`db.ts`): all rows, ordered by `created_at` descending. -/
def listScans : Store → List ScanRow
  | [] => []
  | r :: rest => insertDesc r (listScans rest)

/-! ## Orchestrator client (`temporal-client.ts`) -/

/-- The `status` field of the progress answer, typed
`'running' | 'completed' | 'failed'` in interface `WorkflowProgress`. -/
inductive ProgressStatus where
  | running
  | completed
  | failed
deriving DecidableEq, Repr

/-- The scan-store status word written for a progress status. -/
def ProgressStatus.toStatus : ProgressStatus → Status
  | .running => Status.running
  | .completed => Status.completed
  | .failed => Status.failed

/-- Per-agent metrics entry of `WorkflowProgress.agentMetrics`. -/
structure AgentMetric where
  durationMs : Int
  inputTokens : Option Int
  outputTokens : Option Int
  costUsd : Option Int
  numTurns : Option Int
  model : Option String
deriving DecidableEq, Repr

/-- Interface `WorkflowProgress` (`temporal-client.ts`). -/
structure WorkflowProgress where
  status : ProgressStatus
  currentPhase : Option String
  currentAgent : Option String
  completedAgents : List String
  failedAgent : Option String
  error : Option String
  startTime : Nat
  agentMetrics : List (String × AgentMetric)
  summary : Option Summary
  workflowId : String
  elapsedMs : Nat
deriving DecidableEq, Repr

/-- The attempt `getTemporalClient()` → `getHandle` → `handle.query` made
inside `queryWorkflowProgress` for one workflow id: it either produces a
progress answer or raises (connection failure, unknown workflow,
unsupported query on a terminal workflow...).  Routes are parametrised by
one such oracle per workflow id. -/
abbrev QueryOracle := String → Except String WorkflowProgress

/-- `queryWorkflowProgress` (`temporal-client.ts`): the whole body sits in
`try { ... } catch { return null }`, so every raising outcome of the
underlying attempt is mapped to `null` and the function is total — it
never propagates an exception. -/
def queryWorkflowProgress (underlying : Except String WorkflowProgress) :
    Option WorkflowProgress :=
  match underlying with
  | .ok p => some p
  | .error _ => none

/-- Module-level mutable state of `temporal-client.ts` plus the
instrumentation the spec asks for: `connection`, `client` and `connecting`
are the three `let` bindings (handles embedded as naturals, in-flight
attempts named by fresh naturals), `connectCount` counts invocations of
`Connection.connect`, `waiters` records the callers currently awaiting the
in-flight attempt (with the attempt they await), and `delivered` records
each finished caller with its result (`Except.ok handle` or the propagated
connection failure). -/
structure ClientState where
  connection : Option Nat
  client : Option Nat
  connecting : Option Nat
  connectCount : Nat
  nextId : Nat
  waiters : List (Nat × Nat)
  delivered : List (Nat × Except Unit Nat)
deriving Repr

/-- The clean module state at load: all three slots `null`. -/
def tcInit : ClientState :=
  { connection := none, client := none, connecting := none,
    connectCount := 0, nextId := 0, waiters := [], delivered := [] }

/-- Atomic events of the client lifecycle.  JavaScript runs
`getTemporalClient` synchronously from entry up to the first `await`
inside the IIFE (which is `Connection.connect`), so the check of `client`,
the check of `connecting` and the installation of the new in-flight promise
form one atomic step; the `catch`/`finally` handlers of the attempt run
atomically when the connect settles. -/
inductive TCEvent where
  | call (caller : Nat)
  | connectOk
  | connectFail
  | close
deriving DecidableEq, Repr

/-- One step of the client lifecycle (`temporal-client.ts`).
`call`: `if (client) return client;` then
`if (connecting) return connecting;` then start one attempt
(`Connection.connect` invoked once, `connecting` set, caller awaits it).
`connectOk`: the attempt resolves — `connection` and `client` are cached,
`finally` clears `connecting`, every waiter receives the client.
`connectFail`: the `catch` resets `connection` and `client` to `null`,
`finally` clears `connecting`, every waiter receives the failure.
`close`: `closeTemporalConnection` — only when a connection is cached,
clear `connection` and `client`. -/
def tcStep (s : ClientState) : TCEvent → ClientState
  | .call c =>
    match s.client with
    | some k => { s with delivered := (c, Except.ok k) :: s.delivered }
    | none =>
      match s.connecting with
      | some a => { s with waiters := (c, a) :: s.waiters }
      | none =>
        { s with connecting := some s.nextId
                 nextId := s.nextId + 1
                 connectCount := s.connectCount + 1
                 waiters := (c, s.nextId) :: s.waiters }
  | .connectOk =>
    match s.connecting with
    | none => s
    | some _ =>
      { s with connection := some s.nextId
               client := some s.nextId
               connecting := none
               nextId := s.nextId + 1
               waiters := []
               delivered :=
                 s.waiters.map (fun w => (w.1, Except.ok s.nextId)) ++ s.delivered }
  | .connectFail =>
    match s.connecting with
    | none => s
    | some _ =>
      { s with connection := none
               client := none
               connecting := none
               waiters := []
               delivered :=
                 s.waiters.map (fun w => (w.1, Except.error ())) ++ s.delivered }
  | .close =>
    match s.connection with
    | some _ => { s with connection := none, client := none }
    | none => s

/-- Run a sequence of client events. -/
def tcRun (s : ClientState) : List TCEvent → ClientState
  | [] => s
  | e :: es => tcRun (tcStep s e) es

/-! ## Reconciliation routes (`routes/scans.ts`) -/

/-- The externally exposed (camelCase) representation built by
`formatScan`. -/
structure ScanView where
  id : String
  workflowId : Option String
  targetUrl : String
  repoPath : String
  configPath : Option String
  status : Status
  currentPhase : Option String
  currentAgent : Option String
  completedAgents : List String
  error : Option String
  createdAt : Nat
  updatedAt : Nat
  summary : Option Summary
deriving DecidableEq, Repr

/-- `formatScan` (`routes/scans.ts`): the column-to-field renaming, with
`completed_agents` and `summary` parsed back from their serialised form. -/
def formatScan (r : ScanRow) : ScanView :=
  { id := r.id
    workflowId := r.workflow_id
    targetUrl := r.target_url
    repoPath := r.repo_path
    configPath := r.config_path
    status := r.status
    currentPhase := r.current_phase
    currentAgent := r.current_agent
    completedAgents := r.completed_agents
    error := r.error
    createdAt := r.created_at
    updatedAt := r.updated_at
    summary := r.summary }

/-- Result of `POST /api/scans`: 400 with no record, 201 with the running
scan, or 500 with the failed scan. -/
inductive CreateResult where
  | badRequest
  | created (v : ScanView)
  | failed (v : ScanView)
deriving DecidableEq, Repr

/-- The patch written by the create route after `startWorkflow` resolves. -/
def runningPatch (workflowId : String) : UpdateScanInput :=
  { workflowId := some workflowId, status := some Status.running }

/-- The patch written by the create route after `startWorkflow` throws:
`status: 'failed'` and the error message
`` `Failed to start workflow: ${errMsg}` ``. -/
def failedPatch (errMsg : String) : UpdateScanInput :=
  { status := some Status.failed
    error := some (some ("Failed to start workflow: " ++ errMsg)) }

/-- `POST /api/scans` (`routes/scans.ts`).  `startResult` is the outcome of
`await startWorkflow(...)` (`Except.ok workflowId` or the thrown message);
`freshId` is the UUID `createScan` generates and `now1`/`now2` the two
clock reads (insert, then update).  Request validation is the emptiness
check `if (!targetUrl || !repoPath)`; the spread
`...(configPath ? { configPath } : {})` drops an empty-string config path.
The non-null assertions `updated!` are embedded by `Option.getD` with the
created row; freshness of the UUID makes the lookup succeed. -/
def createRoute (store : Store) (targetUrl repoPath : String)
    (configPath : Option String) (freshId : String)
    (startResult : Except String String) (now1 now2 : Nat) :
    Store × CreateResult :=
  if targetUrl = "" ∨ repoPath = "" then (store, CreateResult.badRequest)
  else
    let cfg : Option String := match configPath with
      | some "" => none
      | c => c
    let res := createScan store freshId now1
      { targetUrl := targetUrl, repoPath := repoPath, configPath := cfg }
    let scan := res.2
    match startResult with
    | .ok workflowId =>
      let upd := updateScan res.1 scan.id (runningPatch workflowId) now2
      (upd.1, CreateResult.created (formatScan (upd.2.getD scan)))
    | .error e =>
      let upd := updateScan res.1 scan.id (failedPatch e) now2
      (upd.1, CreateResult.failed (formatScan (upd.2.getD scan)))

/-- Body of a sync response: 404 or the formatted record. -/
inductive SyncResult where
  | notFound
  | ok (v : ScanView)
deriving DecidableEq, Repr

/-- The patch written by both sync routes from a progress answer: all six
fields are specified, so phase, agent, agent list, error and summary are
overwritten wholesale (an explicit `null` in the answer clears the
column). -/
def progressPatch (p : WorkflowProgress) : UpdateScanInput :=
  { status := some p.status.toStatus
    currentPhase := some p.currentPhase
    currentAgent := some p.currentAgent
    completedAgents := some p.completedAgents
    error := some p.error
    summary := some p.summary }

/-- Outcome of `POST /api/scans/:id/sync`: the table afterwards, the
response, and how many orchestrator progress queries were performed. -/
structure SyncOneOutcome where
  store : Store
  response : SyncResult
  queries : Nat
deriving Repr

/-- `POST /api/scans/:id/sync` (`routes/scans.ts`): 404 when the id is
unknown; return the record untouched when `workflow_id` is null or the
status is terminal (`'completed'`/`'failed'`) — without querying; otherwise
query progress, return the record untouched on `null`, and otherwise write
`progressPatch` and return the updated record (`formatScan(updated!)`,
embedded with `Option.getD`). -/
def syncOne (store : Store) (id : String) (query : QueryOracle)
    (now : Nat) : SyncOneOutcome :=
  match getScan store id with
  | none => ⟨store, SyncResult.notFound, 0⟩
  | some row =>
    match row.workflow_id with
    | none => ⟨store, SyncResult.ok (formatScan row), 0⟩
    | some wf =>
      if row.status = Status.completed ∨ row.status = Status.failed then
        ⟨store, SyncResult.ok (formatScan row), 0⟩
      else
        match queryWorkflowProgress (query wf) with
        | none => ⟨store, SyncResult.ok (formatScan row), 1⟩
        | some progress =>
          let upd := updateScan store row.id (progressPatch progress) now
          ⟨upd.1, SyncResult.ok (formatScan (upd.2.getD row)), 1⟩

/-- Eligibility filter of the sync-all route:
`r.status === 'running' && r.workflow_id`. -/
def isEligible (r : ScanRow) : Bool :=
  decide (r.status = Status.running) && r.workflow_id.isSome

/-- One task of the `running.map(async (row) => ...)` fan-out.  `none`
models the task promise rejecting: the write of that one scan is lost but
nothing else is affected.  `queryWorkflowProgress` itself never rejects
(its body is wrapped in a catch-all), so the injected rejection point is
the synchronous `updateScan` call inside the task closure, driven by the
fault oracle `updateOk`. -/
def syncAllTask (st : Store) (row : ScanRow) (query : QueryOracle)
    (updateOk : String → Bool) (now : Nat) : Option Store :=
  match row.workflow_id with
  | none => some st
  | some wf =>
    match queryWorkflowProgress (query wf) with
    | none => some st
    | some progress =>
      if updateOk row.id then
        some (updateScan st row.id (progressPatch progress) now).1
      else none

/-- The all-settled barrier of the sync-all route: every task runs to
completion regardless of other tasks rejecting (`Promise.allSettled`,
which never short-circuits); a rejected task simply leaves no write. -/
def runTasks (rows : List ScanRow) (st : Store) (query : QueryOracle)
    (updateOk : String → Bool) (now : Nat) : Store :=
  match rows with
  | [] => st
  | row :: rest =>
    match syncAllTask st row query updateOk now with
    | some st1 => runTasks rest st1 query updateOk now
    | none => runTasks rest st query updateOk now

/-- `POST /api/scans/sync` (`routes/scans.ts`): list all scans, filter to
running scans with a workflow id, fan the per-scan work out under
`Promise.allSettled`, and respond with the JSON object
`{ synced: results.length }` — `results` being the settled-outcome array,
one entry per eligible scan whatever its outcome.  The response body is
embedded as its list of JSON fields. -/
def syncAll (store : Store) (query : QueryOracle) (updateOk : String → Bool)
    (now : Nat) : Store × List (String × Nat) :=
  let rows := listScans store
  let running := rows.filter isEligible
  let final := runTasks running store query updateOk now
  (final, [("synced", running.length)])

/-! ## The exposed operations as a transition system

The boundary operations create / get / list / syncOne / syncAll, each taken
with the oracle data it consumes (clock reads, the generated UUID, the
start outcome, the per-workflow query outcomes, the per-scan write-fault
oracle). -/

/-- One invocation of an exposed operation. -/
inductive Op where
  | createOp (targetUrl repoPath : String) (configPath : Option String)
      (freshId : String) (startResult : Except String String) (now1 now2 : Nat)
  | getOp (id : String)
  | listOp
  | syncOneOp (id : String) (query : QueryOracle) (now : Nat)
  | syncAllOp (query : QueryOracle) (updateOk : String → Bool) (now : Nat)

/-- The table after an operation (get and list only read). -/
def stepStore (store : Store) : Op → Store
  | .createOp t r c f s n1 n2 => (createRoute store t r c f s n1 n2).1
  | .getOp _ => store
  | .listOp => store
  | .syncOneOp id q now => (syncOne store id q now).store
  | .syncAllOp q u now => (syncAll store q u now).1

/-- Environment guarantee for an operation: the UUID `crypto.randomUUID()`
handed to the create route is fresh.  All other operations need nothing. -/
def opOk (store : Store) : Op → Prop
  | .createOp _ _ _ freshId _ _ _ => freshId ∉ store.map ScanRow.id
  | _ => True

/-- Tables reachable from the empty table through exposed operations. -/
inductive Reachable : Store → Prop where
  | init : Reachable []
  | next {s : Store} (op : Op) : Reachable s → opOk s op →
      Reachable (stepStore s op)

/-! ## Basic store lemmas -/

theorem applyPatch_id (r : ScanRow) (p : UpdateScanInput) (n : Nat) :
    (applyPatch r p n).id = r.id := rfl

theorem getScan_mem {s : Store} {id : String} {r : ScanRow}
    (h : getScan s id = some r) : r ∈ s := by
  induction s with
  | nil => simp [getScan] at h
  | cons a t ih =>
    by_cases ha : a.id = id
    · simp only [getScan, if_pos ha, Option.some.injEq] at h
      exact h ▸ List.mem_cons_self a t
    · simp only [getScan, if_neg ha] at h
      exact List.mem_cons_of_mem a (ih h)

theorem getScan_id {s : Store} {id : String} {r : ScanRow}
    (h : getScan s id = some r) : r.id = id := by
  induction s with
  | nil => simp [getScan] at h
  | cons a t ih =>
    by_cases ha : a.id = id
    · simp only [getScan, if_pos ha, Option.some.injEq] at h
      exact h ▸ ha
    · simp only [getScan, if_neg ha] at h
      exact ih h

theorem getScan_map_patch (s : Store) (id : String) (p : UpdateScanInput)
    (n : Nat) :
    getScan (s.map fun r => if r.id = id then applyPatch r p n else r) id
      = (getScan s id).map fun r => applyPatch r p n := by
  induction s with
  | nil => rfl
  | cons a t ih =>
    by_cases ha : a.id = id
    · simp [getScan, ha, applyPatch_id]
    · simp [getScan, ha, ih]

theorem getScan_map_patch_ne (s : Store) {id x : String}
    (p : UpdateScanInput) (n : Nat) (hx : x ≠ id) :
    getScan (s.map fun r => if r.id = id then applyPatch r p n else r) x
      = getScan s x := by
  have hix : id ≠ x := Ne.symm hx
  induction s with
  | nil => rfl
  | cons a t ih =>
    by_cases ha : a.id = id
    · have hax : ¬ a.id = x := fun h => hx (h ▸ ha ▸ rfl)
      simp [getScan, ha, applyPatch_id, hax, hix, ih]
    · by_cases hax : a.id = x
      · simp [getScan, ha, hax, hx]
      · simp [getScan, ha, hax, ih]

theorem updateScan_fst_of_empty {p : UpdateScanInput} (h : p.isEmpty)
    (s : Store) (id : String) (n : Nat) : (updateScan s id p n).1 = s := by
  simp [updateScan, h]

theorem updateScan_fst_of_not_empty {p : UpdateScanInput} (h : ¬ p.isEmpty)
    (s : Store) (id : String) (n : Nat) :
    (updateScan s id p n).1
      = s.map fun r => if r.id = id then applyPatch r p n else r := by
  simp [updateScan, h]

theorem updateScan_ids (s : Store) (id : String) (p : UpdateScanInput)
    (n : Nat) :
    ((updateScan s id p n).1).map ScanRow.id = s.map ScanRow.id := by
  by_cases h : p.isEmpty
  · rw [updateScan_fst_of_empty h]
  · rw [updateScan_fst_of_not_empty h, List.map_map]
    apply List.map_congr_left
    intro r _
    by_cases hr : r.id = id <;> simp [hr, applyPatch_id]

theorem getScan_updateScan_ne {x id : String} (hx : x ≠ id) (s : Store)
    (p : UpdateScanInput) (n : Nat) :
    getScan (updateScan s id p n).1 x = getScan s x := by
  by_cases h : p.isEmpty
  · rw [updateScan_fst_of_empty h]
  · rw [updateScan_fst_of_not_empty h, getScan_map_patch_ne s p n hx]

theorem getScan_updateScan_self {s : Store} {id : String} {r : ScanRow}
    (h : getScan s id = some r) {p : UpdateScanInput} (hp : ¬ p.isEmpty)
    (n : Nat) :
    getScan (updateScan s id p n).1 id = some (applyPatch r p n) := by
  rw [updateScan_fst_of_not_empty hp, getScan_map_patch, h]; rfl

theorem updateScan_snd {s : Store} {id : String} {r : ScanRow}
    (h : getScan s id = some r) (p : UpdateScanInput) (n : Nat) :
    (updateScan s id p n).2
      = some (if p.isEmpty then r else applyPatch r p n) := by
  by_cases hp : p.isEmpty
  · simp [updateScan, hp, h]
  · simp only [updateScan, if_neg hp, if_neg hp]
    rw [getScan_map_patch, h]; rfl

theorem getScan_append_self {s : Store} {row : ScanRow}
    (h : row.id ∉ s.map ScanRow.id) :
    getScan (s ++ [row]) row.id = some row := by
  induction s with
  | nil => simp [getScan]
  | cons a t ih =>
    simp only [List.map_cons, List.mem_cons] at h
    push_neg at h
    have ha : ¬ a.id = row.id := fun hh => h.1 hh.symm
    simpa [getScan, ha] using ih h.2

theorem getScan_append_ne {x : String} {row : ScanRow} (hx : row.id ≠ x)
    (s : Store) : getScan (s ++ [row]) x = getScan s x := by
  induction s with
  | nil => simp [getScan, hx]
  | cons a t ih =>
    by_cases ha : a.id = x
    · simp [getScan, ha]
    · simp [getScan, ha, ih]

theorem mem_insertDesc {x r : ScanRow} {l : List ScanRow} :
    x ∈ insertDesc r l ↔ x = r ∨ x ∈ l := by
  induction l with
  | nil => simp [insertDesc]
  | cons y ys ih =>
    by_cases h : r.created_at < y.created_at
    · simp only [insertDesc, if_pos h, List.mem_cons, ih]
      tauto
    · simp only [insertDesc, if_neg h, List.mem_cons]

theorem insertDesc_perm (x : ScanRow) (l : List ScanRow) :
    (insertDesc x l).Perm (x :: l) := by
  induction l with
  | nil => exact List.Perm.refl _
  | cons y ys ih =>
    by_cases h : x.created_at < y.created_at
    · simp only [insertDesc, if_pos h]
      exact (ih.cons y).trans (List.Perm.swap x y ys)
    · simp only [insertDesc, if_neg h]
      exact List.Perm.refl _

theorem listScans_perm (s : Store) : (listScans s).Perm s := by
  induction s with
  | nil => exact List.Perm.refl _
  | cons r t ih => exact (insertDesc_perm r (listScans t)).trans (ih.cons r)

theorem nodup_id_unique {s : Store} (hs : (s.map ScanRow.id).Nodup)
    {r r' : ScanRow} (hr : r ∈ s) (hr' : r' ∈ s) (h : r.id = r'.id) :
    r = r' :=
  List.inj_on_of_nodup_map hs hr hr' h

theorem getScan_of_mem_nodup {s : Store} (hs : (s.map ScanRow.id).Nodup)
    {r : ScanRow} (hr : r ∈ s) : getScan s r.id = some r := by
  induction s with
  | nil => cases hr
  | cons a t ih =>
    rcases List.mem_cons.mp hr with h | h
    · subst h; simp [getScan]
    · by_cases ha : a.id = r.id
      · exfalso
        simp only [List.map_cons, List.nodup_cons] at hs
        exact hs.1 (ha ▸ List.mem_map_of_mem ScanRow.id h)
      · simp only [List.map_cons, List.nodup_cons] at hs
        simp [getScan, ha, ih hs.2 h]

/-! ## Shared concrete fixtures for witnesses -/

/-- A concrete scan row used by witness instances. -/
def baseRow : ScanRow :=
  { id := "scan-1"
    workflow_id := none
    target_url := "https://example.com"
    repo_path := "repo"
    config_path := none
    status := Status.pending
    current_phase := none
    current_agent := none
    completed_agents := []
    error := none
    created_at := 1
    updated_at := 1
    summary := none }

/-- A concrete progress answer used by witness instances. -/
def sampleProgress : WorkflowProgress :=
  { status := ProgressStatus.completed
    currentPhase := some "report"
    currentAgent := none
    completedAgents := ["pre-recon", "recon"]
    failedAgent := none
    error := none
    startTime := 0
    agentMetrics := []
    summary := none
    workflowId := "wf-1"
    elapsedMs := 9 }

/-- A query oracle whose underlying attempt always raises. -/
def failingOracle : QueryOracle := fun _ => Except.error "connection refused"

/-- `baseRow` in terminal state with a workflow attached. -/
def completedRow : ScanRow :=
  { baseRow with status := Status.completed, workflow_id := some "wf-1" }

/-- `baseRow` running with a workflow attached. -/
def runningRow : ScanRow :=
  { baseRow with status := Status.running, workflow_id := some "wf-1" }

/-! ## Claims -/

/-- C4: for every scan whose status is completed or failed, the per-scan
sync operation performs zero orchestrator progress queries and returns the
stored record unchanged, and repeating the call yields the identical
outcome (store, response and query count) each time. -/
theorem syncOne_terminal_noop {store : Store} {id : String} {row : ScanRow}
    (hget : getScan store id = some row)
    (hterm : row.status = Status.completed ∨ row.status = Status.failed)
    (query : QueryOracle) (now : Nat) :
    syncOne store id query now
      = ⟨store, SyncResult.ok (formatScan row), 0⟩ ∧
    syncOne (syncOne store id query now).store id query now
      = ⟨store, SyncResult.ok (formatScan row), 0⟩ := by
  have h1 : syncOne store id query now
      = ⟨store, SyncResult.ok (formatScan row), 0⟩ := by
    cases hwf : row.workflow_id with
    | none => simp [syncOne, hget, hwf]
    | some wf => simp [syncOne, hget, hwf, hterm]
  exact ⟨h1, by rw [h1]; exact h1⟩

/-- Witness for C4 at a concrete terminal scan. -/
theorem syncOne_terminal_noop_witness :
    syncOne [completedRow] "scan-1" failingOracle 7
      = ⟨[completedRow], SyncResult.ok (formatScan completedRow), 0⟩ :=
  (syncOne_terminal_noop (by decide) (by decide) failingOracle 7).1

/-- C6: `queryWorkflowProgress` maps every raising outcome of the
underlying query to `null` instead of propagating the exception (and a
successful answer to that answer), and when the per-scan sync operation
receives `null` for a live scan it returns the stored record unchanged —
the store is untouched, so the scan is in particular never marked
failed. -/
theorem queryProgress_unavailable_skips :
    (∀ e : String, queryWorkflowProgress (Except.error e) = none) ∧
    (∀ p : WorkflowProgress, queryWorkflowProgress (Except.ok p) = some p) ∧
    (∀ (store : Store) (id : String) (row : ScanRow) (query : QueryOracle)
        (now : Nat) (wf : String),
      getScan store id = some row → row.workflow_id = some wf →
      ¬(row.status = Status.completed ∨ row.status = Status.failed) →
      queryWorkflowProgress (query wf) = none →
      syncOne store id query now
        = ⟨store, SyncResult.ok (formatScan row), 1⟩) := by
  refine ⟨fun _ => rfl, fun _ => rfl, ?_⟩
  intro store id row query now wf hget hwf hterm hq
  simp [syncOne, hget, hwf, hterm, hq]

/-- Witness for C6 at a concrete running scan and a failing query. -/
theorem queryProgress_unavailable_skips_witness :
    queryWorkflowProgress (Except.error "connection refused") = none ∧
    syncOne [runningRow] "scan-1" failingOracle 7
      = ⟨[runningRow], SyncResult.ok (formatScan runningRow), 1⟩ :=
  ⟨queryProgress_unavailable_skips.1 "connection refused",
   queryProgress_unavailable_skips.2.2 _ "scan-1" _ failingOracle 7 "wf-1"
     (by decide) (by decide) (by decide) rfl⟩

/-- C2 (counterexample): the sync-all response object carries its count
under the JSON key `synced` — there is no `attempted` field, so the
response is not of shape `{ attempted: number }`.  Concrete input: a store
with one eligible (running, workflow attached) scan and one pending
scan. -/
theorem syncAll_attempted_counterexample :
    List.lookup "attempted"
        (syncAll [runningRow, baseRow] failingOracle (fun _ => true) 9).2
      = none ∧
    (syncAll [runningRow, baseRow] failingOracle (fun _ => true) 9).2
      = [("synced", 1)] := by
  constructor <;> rfl

/-- C2 (amended): the sync-all operation responds with the single-field
object `{ synced: n }` where `n` is the number of stored scans whose
status is `running` and whose workflow id is non-null, counting every such
scan regardless of the outcome (success, skip, or failure) of its
individual sync task. -/
theorem syncAll_response (store : Store) (query : QueryOracle)
    (updateOk : String → Bool) (now : Nat) :
    (syncAll store query updateOk now).2
      = [("synced", (store.filter isEligible).length)] := by
  have hperm : ((listScans store).filter isEligible).Perm
      (store.filter isEligible) := (listScans_perm store).filter _
  simp only [syncAll]
  rw [hperm.length_eq]

/-- Under a fresh id, `createScan` appends the new pending row and returns
exactly it. -/
theorem createScan_of_fresh {store : Store} {freshId : String}
    (hfresh : freshId ∉ store.map ScanRow.id) (now : Nat)
    (input : CreateScanInput) :
    createScan store freshId now input
      = (store ++ [newScanRow freshId now input],
         newScanRow freshId now input) := by
  have h : getScan (store ++ [newScanRow freshId now input]) freshId
      = some (newScanRow freshId now input) := getScan_append_self hfresh
  simp [createScan, h]

/-- C5: when the workflow-start step throws after the scan record has been
created, the create operation leaves a record under the generated id (it
is neither deleted nor rolled back), transitions it to status `failed`
(in particular it is not left `pending`), stores the error message
`Failed to start workflow: ` followed by the thrown message (so the error
contains the underlying failure message as a suffix), leaves the workflow
id null, and responds with that failed record. -/
theorem createRoute_start_failure {store : Store} {targetUrl repoPath : String}
    (configPath : Option String) {freshId : String} (e : String)
    (now1 now2 : Nat) (hfresh : freshId ∉ store.map ScanRow.id)
    (ht : ¬ targetUrl = "") (hr : ¬ repoPath = "") :
    ∃ row : ScanRow,
      getScan (createRoute store targetUrl repoPath configPath freshId
          (Except.error e) now1 now2).1 freshId = some row ∧
      (createRoute store targetUrl repoPath configPath freshId
          (Except.error e) now1 now2).2
        = CreateResult.failed (formatScan row) ∧
      row.status = Status.failed ∧ ¬ row.status = Status.pending ∧
      row.error = some ("Failed to start workflow: " ++ e) ∧
      row.workflow_id = none := by
  have hcond : ¬ (targetUrl = "" ∨ repoPath = "") := by tauto
  have hpne : ¬ (failedPatch e).isEmpty := by
    simp [failedPatch, UpdateScanInput.isEmpty]
  set input : CreateScanInput :=
    { targetUrl := targetUrl, repoPath := repoPath,
      configPath := match configPath with | some "" => none | c => c }
    with hinput
  set row0 := newScanRow freshId now1 input with hrow0
  have hid0 : row0.id = freshId := rfl
  have hg1 : getScan (store ++ [row0]) freshId = some row0 :=
    getScan_append_self (hid0 ▸ hfresh)
  have hcreate : createScan store freshId now1 input = (store ++ [row0], row0) :=
    createScan_of_fresh hfresh now1 input
  have hroute : createRoute store targetUrl repoPath configPath freshId
      (Except.error e) now1 now2
      = ((updateScan (store ++ [row0]) freshId (failedPatch e) now2).1,
         CreateResult.failed (formatScan
           (((updateScan (store ++ [row0]) freshId (failedPatch e) now2).2).getD
             row0))) := by
    simp only [createRoute, if_neg hcond, ← hinput, hcreate]
    rfl
  refine ⟨applyPatch row0 (failedPatch e) now2, ?_, ?_, ?_, ?_, ?_, ?_⟩
  · rw [hroute]
    exact getScan_updateScan_self hg1 hpne now2
  · rw [hroute]
    rw [updateScan_snd hg1 (failedPatch e) now2, if_neg hpne]
    rfl
  · rfl
  · simp [applyPatch, failedPatch]
  · rfl
  · simp [applyPatch, failedPatch, hrow0, newScanRow]

/-- Witness for C5 at a concrete failed start. -/
theorem createRoute_start_failure_witness :
    ∃ row : ScanRow,
      getScan (createRoute [] "https://example.com" "repo" none "scan-1"
          (Except.error "unreachable") 1 2).1 "scan-1" = some row ∧
      (createRoute [] "https://example.com" "repo" none "scan-1"
          (Except.error "unreachable") 1 2).2
        = CreateResult.failed (formatScan row) ∧
      row.status = Status.failed ∧ ¬ row.status = Status.pending ∧
      row.error = some ("Failed to start workflow: " ++ "unreachable") ∧
      row.workflow_id = none :=
  createRoute_start_failure none "unreachable" 1 2 (by decide) (by decide)
    (by decide)

/-- A sequence of `updateScan` calls against one scan id, each with its
own patch and clock read. -/
def runUpdates (store : Store) (id : String) :
    List (UpdateScanInput × Nat) → Store
  | [] => store
  | c :: cs => runUpdates (updateScan store id c.1 c.2).1 id cs

theorem chain_drop_second {a t : Nat} {rest : List Nat}
    (h : List.Chain' (· ≤ ·) (a :: t :: rest)) :
    List.Chain' (· ≤ ·) (a :: rest) := by
  cases rest with
  | nil => simp
  | cons b bs =>
    obtain ⟨h1, h2⟩ := List.chain'_cons.mp h
    obtain ⟨h3, h4⟩ := List.chain'_cons.mp h2
    exact List.chain'_cons.mpr ⟨le_trans h1 h3, h4⟩

/-- Core monotonicity: along any call sequence whose clock reads are
non-decreasing and start no earlier than the stored `updated_at`, the
stored `updated_at` never decreases. -/
theorem runUpdates_mono {id : String} :
    ∀ (calls : List (UpdateScanInput × Nat)) (store : Store) (row : ScanRow),
      getScan store id = some row →
      List.Chain' (· ≤ ·) (row.updated_at :: calls.map Prod.snd) →
      ∃ row', getScan (runUpdates store id calls) id = some row' ∧
        row.updated_at ≤ row'.updated_at := by
  intro calls
  induction calls with
  | nil => exact fun store row h _ => ⟨row, h, le_refl _⟩
  | cons c cs ih =>
    intro store row h hchain
    by_cases hp : c.1.isEmpty
    · have hst : (updateScan store id c.1 c.2).1 = store :=
        updateScan_fst_of_empty hp store id c.2
      have hrest : List.Chain' (· ≤ ·) (row.updated_at :: cs.map Prod.snd) :=
        chain_drop_second (by simpa using hchain)
      have := ih ((updateScan store id c.1 c.2).1) row (by rw [hst]; exact h)
        (by rw [hst] at *; exact hrest)
      simpa [runUpdates] using this
    · have hst : getScan (updateScan store id c.1 c.2).1 id
          = some (applyPatch row c.1 c.2) := getScan_updateScan_self h hp c.2
      have hchain2 : List.Chain' (· ≤ ·)
          ((applyPatch row c.1 c.2).updated_at :: cs.map Prod.snd) := by
        have := (List.chain'_cons.mp (by simpa using hchain)).2
        simpa [applyPatch] using this
      obtain ⟨row', hrow', hle⟩ :=
        ih ((updateScan store id c.1 c.2).1) (applyPatch row c.1 c.2) hst hchain2
      refine ⟨row', by simpa [runUpdates] using hrow', ?_⟩
      have hfirst : row.updated_at ≤ c.2 :=
        (List.chain'_cons.mp (by simpa using hchain)).1
      exact le_trans hfirst (by simpa [applyPatch] using hle)

/-- C7: a patch specifying no fields performs no write — the store and the
returned record (every field, `updated_at` included) are exactly the
current ones; a patch specifying at least one field applies exactly the
specified fields and sets `updated_at` to the clock read of the call; and
along any sequence of update calls with non-decreasing clock reads the
stored `updated_at` is monotonically non-decreasing. -/
theorem updateScan_noop_refresh_monotone :
    (∀ (store : Store) (id : String) (now : Nat),
      updateScan store id {} now = (store, getScan store id)) ∧
    (∀ (store : Store) (id : String) (p : UpdateScanInput) (now : Nat)
        (row : ScanRow), ¬ p.isEmpty → getScan store id = some row →
      (updateScan store id p now).2 = some (applyPatch row p now) ∧
      (applyPatch row p now).updated_at = now) ∧
    (∀ (store : Store) (id : String) (row : ScanRow)
        (calls : List (UpdateScanInput × Nat)),
      getScan store id = some row →
      List.Chain' (· ≤ ·) (row.updated_at :: calls.map Prod.snd) →
      ∃ row', getScan (runUpdates store id calls) id = some row' ∧
        row.updated_at ≤ row'.updated_at) := by
  refine ⟨?_, ?_, ?_⟩
  · intro store id now
    have hemp : (({} : UpdateScanInput)).isEmpty := ⟨rfl, rfl, rfl, rfl, rfl, rfl, rfl⟩
    simp [updateScan, hemp]
  · intro store id p now row hp hget
    refine ⟨?_, rfl⟩
    rw [updateScan_snd hget p now, if_neg hp]
  · exact fun store id row calls h hc => runUpdates_mono calls store row h hc

/-- Witness for C7: a no-op patch at clock 9 and a two-call sequence with
clock reads 5 then 7 against a row last updated at 1. -/
theorem updateScan_noop_refresh_monotone_witness :
    updateScan [baseRow] "scan-1" {} 9 = ([baseRow], getScan [baseRow] "scan-1") ∧
    (∃ row', getScan (runUpdates [baseRow] "scan-1"
        [(runningPatch "wf-1", 5), ({}, 7)]) "scan-1" = some row' ∧
      baseRow.updated_at ≤ row'.updated_at) :=
  ⟨updateScan_noop_refresh_monotone.1 [baseRow] "scan-1" 9,
   updateScan_noop_refresh_monotone.2.2 [baseRow] "scan-1" baseRow
     [(runningPatch "wf-1", 5), ({}, 7)] (by decide)
     (by simp [baseRow, List.chain'_cons])⟩

/-- C10: in a patch, an explicitly-null value and an absent field are
distinguished for the nullable columns: `some none` clears the column,
`some (some v)` stores `v`, and an absent field (`none`) leaves the column
untouched; moreover every field not specified by the patch — and the
immutable columns `id`, `target_url`, `repo_path`, `config_path`,
`created_at` always — keeps its prior stored value. -/
theorem updateScan_frame {store : Store} {id : String} {row : ScanRow}
    (hget : getScan store id = some row) (p : UpdateScanInput) (now : Nat)
    {row' : ScanRow}
    (hrow' : getScan (updateScan store id p now).1 id = some row') :
    (∀ v, p.currentPhase = some v → row'.current_phase = v) ∧
    (p.currentPhase = none → row'.current_phase = row.current_phase) ∧
    (∀ v, p.currentAgent = some v → row'.current_agent = v) ∧
    (p.currentAgent = none → row'.current_agent = row.current_agent) ∧
    (∀ v, p.error = some v → row'.error = v) ∧
    (p.error = none → row'.error = row.error) ∧
    (∀ v, p.summary = some v → row'.summary = v) ∧
    (p.summary = none → row'.summary = row.summary) ∧
    (p.workflowId = none → row'.workflow_id = row.workflow_id) ∧
    (p.status = none → row'.status = row.status) ∧
    (p.completedAgents = none → row'.completed_agents = row.completed_agents) ∧
    row'.id = row.id ∧ row'.target_url = row.target_url ∧
    row'.repo_path = row.repo_path ∧ row'.config_path = row.config_path ∧
    row'.created_at = row.created_at := by
  by_cases hp : p.isEmpty
  · rw [updateScan_fst_of_empty hp, hget] at hrow'
    obtain rfl : row = row' := by injection hrow'
    obtain ⟨h1, h2, h3, h4, h5, h6, h7⟩ := hp
    refine ⟨?_, ?_, ?_, ?_, ?_, ?_, ?_, ?_, ?_, ?_, ?_, rfl, rfl, rfl, rfl, rfl⟩
      <;> simp [h1, h2, h3, h4, h5, h6, h7]
  · rw [getScan_updateScan_self hget hp now] at hrow'
    obtain rfl : applyPatch row p now = row' := by injection hrow'
    refine ⟨?_, ?_, ?_, ?_, ?_, ?_, ?_, ?_, ?_, ?_, ?_, rfl, rfl, rfl, rfl, rfl⟩
      <;> intro h <;> try intro hv
    all_goals simp_all [applyPatch]

/-- `baseRow` with a phase and an error set, for the C10 witness. -/
def frameRow : ScanRow :=
  { baseRow with current_phase := some "recon", error := some "boom" }

/-- A patch clearing `current_phase` with an explicit null while leaving
`error` absent. -/
def framePatch : UpdateScanInput := { currentPhase := some none }

/-- Witness for C10: the explicit null clears the phase while the absent
`error` field leaves the stored error untouched. -/
theorem updateScan_frame_witness :
    (applyPatch frameRow framePatch 4).current_phase = none ∧
    (applyPatch frameRow framePatch 4).error = frameRow.error := by
  have hget : getScan [frameRow] "scan-1" = some frameRow := by decide
  have hrow2 : getScan (updateScan [frameRow] "scan-1" framePatch 4).1 "scan-1"
      = some (applyPatch frameRow framePatch 4) := by decide
  have h := updateScan_frame hget framePatch 4 hrow2
  exact ⟨h.1 none rfl, h.2.2.2.2.2.1 rfl⟩

/-- The progress patch always specifies fields. -/
theorem progressPatch_not_empty (p : WorkflowProgress) :
    ¬ (progressPatch p).isEmpty := by
  simp [progressPatch, UpdateScanInput.isEmpty]

/-- A sync-all task either fulfils with the store unchanged, fulfils
after writing the progress patch of its own row, or rejects. -/
theorem syncAllTask_cases (st : Store) (row : ScanRow) (query : QueryOracle)
    (updateOk : String → Bool) (now : Nat) :
    syncAllTask st row query updateOk now = some st ∨
    (∃ p, syncAllTask st row query updateOk now
        = some (updateScan st row.id (progressPatch p) now).1) ∨
    syncAllTask st row query updateOk now = none := by
  cases hwf : row.workflow_id with
  | none => left; simp [syncAllTask, hwf]
  | some wf =>
    cases hq : queryWorkflowProgress (query wf) with
    | none => left; simp [syncAllTask, hwf, hq]
    | some p =>
      by_cases hok : updateOk row.id = true
      · right; left; exact ⟨p, by simp [syncAllTask, hwf, hq, hok]⟩
      · right; right; simp [syncAllTask, hwf, hq, hok]

/-- A fulfilled sync-all task leaves every other scan id untouched. -/
theorem syncAllTask_getScan_ne {st st1 : Store} {row : ScanRow} {x : String}
    {query : QueryOracle} {updateOk : String → Bool} {now : Nat}
    (h : syncAllTask st row query updateOk now = some st1)
    (hx : x ≠ row.id) : getScan st1 x = getScan st x := by
  rcases syncAllTask_cases st row query updateOk now with h0 | ⟨p, h0⟩ | h0
  · rw [h0] at h
    injection h with h
    rw [← h]
  · rw [h0] at h
    injection h with h
    rw [← h]
    exact getScan_updateScan_ne hx st (progressPatch p) now
  · rw [h0] at h
    cases h

/-- The fan-out leaves scan ids that belong to none of its rows
untouched. -/
theorem runTasks_getScan_ne {query : QueryOracle} {updateOk : String → Bool}
    {now : Nat} {x : String} :
    ∀ (rows : List ScanRow) (st : Store), (∀ r ∈ rows, r.id ≠ x) →
      getScan (runTasks rows st query updateOk now) x = getScan st x := by
  intro rows
  induction rows with
  | nil => intro st _; rfl
  | cons row0 rest ih =>
    intro st hx
    have hx0 : x ≠ row0.id := fun h => hx row0 (List.mem_cons_self _ _) h.symm
    show getScan (match syncAllTask st row0 query updateOk now with
      | some st1 => runTasks rest st1 query updateOk now
      | none => runTasks rest st query updateOk now) x = getScan st x
    cases h : syncAllTask st row0 query updateOk now with
    | some st1 =>
      rw [ih st1 fun r hr => hx r (List.mem_cons_of_mem _ hr)]
      exact syncAllTask_getScan_ne h hx0
    | none => exact ih st fun r hr => hx r (List.mem_cons_of_mem _ hr)

/-- All-settled persistence: along the fan-out over rows with pairwise
distinct ids, every row whose own query succeeds and whose own write does
not fault ends up written, whatever happens to the other rows. -/
theorem runTasks_persists {query : QueryOracle} {updateOk : String → Bool}
    {now : Nat} :
    ∀ (rows : List ScanRow) (st : Store),
      (∀ r ∈ rows, getScan st r.id = some r) →
      (rows.map ScanRow.id).Nodup →
      ∀ row ∈ rows, ∀ wf p, row.workflow_id = some wf →
        query wf = Except.ok p → updateOk row.id = true →
        getScan (runTasks rows st query updateOk now) row.id
          = some (applyPatch row (progressPatch p) now) := by
  intro rows
  induction rows with
  | nil => intro st _ _ row hmem; cases hmem
  | cons row0 rest ih =>
    intro st hids hnd row hmem wf p hwf hq hok
    have hnd0 : row0.id ∉ rest.map ScanRow.id := by
      simp only [List.map_cons, List.nodup_cons] at hnd
      exact hnd.1
    have hndt : (rest.map ScanRow.id).Nodup := by
      simp only [List.map_cons, List.nodup_cons] at hnd
      exact hnd.2
    show getScan (match syncAllTask st row0 query updateOk now with
      | some st1 => runTasks rest st1 query updateOk now
      | none => runTasks rest st query updateOk now) row.id
        = some (applyPatch row (progressPatch p) now)
    rcases List.mem_cons.mp hmem with rfl | hmem'
    · have hq2 : queryWorkflowProgress (query wf) = some p := by
        rw [hq]; rfl
      have htask : syncAllTask st row query updateOk now
          = some (updateScan st row.id (progressPatch p) now).1 := by
        simp [syncAllTask, hwf, hq2, hok]
      rw [htask]
      have hself : getScan (updateScan st row.id (progressPatch p) now).1 row.id
          = some (applyPatch row (progressPatch p) now) :=
        getScan_updateScan_self (hids row (List.mem_cons_self _ _))
          (progressPatch_not_empty p) now
      rw [runTasks_getScan_ne rest _ ?_, hself]
      intro r hr hcontra
      exact hnd0 (hcontra ▸ List.mem_map_of_mem ScanRow.id hr)
    · have hne : row.id ≠ row0.id := by
        intro hcontra
        exact hnd0 (hcontra ▸ List.mem_map_of_mem ScanRow.id hmem')
      cases h : syncAllTask st row0 query updateOk now with
      | some st1 =>
        refine ih st1 ?_ hndt row hmem' wf p hwf hq hok
        intro r hr
        by_cases hrid : r.id = row0.id
        · exfalso
          exact hnd0 (hrid ▸ List.mem_map_of_mem ScanRow.id hr)
        · rw [syncAllTask_getScan_ne h hrid]
          exact hids r (List.mem_cons_of_mem _ hr)
      | none =>
        refine ih st ?_ hndt row hmem' wf p hwf hq hok
        intro r hr
        exact hids r (List.mem_cons_of_mem _ hr)

/-- C9: per-scan outcomes in the sync-all fan-out are isolated.  For any
store with distinct scan ids and any behaviour of the other scans (their
queries may fail and their writes may throw — `query` and `updateOk` are
arbitrary), every eligible scan whose own progress query succeeds and
whose own write does not fault has its update persisted in the final
store. -/
theorem syncAll_isolation {store : Store}
    (hnodup : (store.map ScanRow.id).Nodup)
    (query : QueryOracle) (updateOk : String → Bool) (now : Nat)
    {row : ScanRow} (hmem : row ∈ (listScans store).filter isEligible)
    {wf : String} (hwf : row.workflow_id = some wf)
    {p : WorkflowProgress} (hq : query wf = Except.ok p)
    (hok : updateOk row.id = true) :
    getScan (syncAll store query updateOk now).1 row.id
      = some (applyPatch row (progressPatch p) now) := by
  have hperm := listScans_perm store
  have h1 : ((listScans store).map ScanRow.id).Nodup :=
    ((hperm.map ScanRow.id).nodup_iff).mpr hnodup
  have h2 : (((listScans store).filter isEligible).map ScanRow.id).Nodup :=
    h1.sublist ((List.filter_sublist _).map ScanRow.id)
  have hids : ∀ r ∈ (listScans store).filter isEligible,
      getScan store r.id = some r := by
    intro r hr
    have : r ∈ store := hperm.mem_iff.mp (List.mem_of_mem_filter hr)
    exact getScan_of_mem_nodup hnodup this
  exact runTasks_persists ((listScans store).filter isEligible) store hids h2
    row hmem wf p hwf hq hok

/-- Three running scans for the C9 witness. -/
def rowA : ScanRow :=
  { baseRow with id := "A", status := Status.running,
                 workflow_id := some "wf-A" }

def rowB : ScanRow :=
  { baseRow with id := "B", status := Status.running,
                 workflow_id := some "wf-B" }

def rowC : ScanRow :=
  { baseRow with id := "C", status := Status.running,
                 workflow_id := some "wf-C" }

/-- An oracle answering every query successfully. -/
def okOracle : QueryOracle := fun _ => Except.ok sampleProgress

/-- A fault oracle making exactly scan B's write throw. -/
def faultB : String → Bool := fun i => decide (¬ i = "B")

/-- Witness for C9: scan B's write throws, yet both A and C are queried
and their updates persisted. -/
theorem syncAll_isolation_witness :
    getScan (syncAll [rowA, rowB, rowC] okOracle faultB 9).1 rowA.id
      = some (applyPatch rowA (progressPatch sampleProgress) 9) ∧
    getScan (syncAll [rowA, rowB, rowC] okOracle faultB 9).1 rowC.id
      = some (applyPatch rowC (progressPatch sampleProgress) 9) :=
  ⟨syncAll_isolation (by decide) okOracle faultB 9 (by decide) rfl rfl rfl,
   syncAll_isolation (by decide) okOracle faultB 9 (by decide) rfl rfl rfl⟩

/-! ## Status-transition machinery (C3) -/

/-- The transition relation of the per-scan state machine: stay put, or
move along `pending → running`, `pending → failed`, `running → completed`,
`running → failed`. -/
def allowedTransition (a b : Status) : Prop :=
  a = b ∨
  (a = Status.pending ∧ (b = Status.running ∨ b = Status.failed)) ∨
  (a = Status.running ∧ (b = Status.completed ∨ b = Status.failed))

/-- Structural invariant of reachable tables: scan ids are pairwise
distinct, and a pending scan has no workflow attached (the create route
sets `workflowId` and `status: 'running'` in one write). -/
def StoreInv (s : Store) : Prop :=
  (s.map ScanRow.id).Nodup ∧
  ∀ r ∈ s, r.status = Status.pending → r.workflow_id = none

theorem nodup_append_singleton {l : List String} {a : String}
    (hl : l.Nodup) (ha : a ∉ l) : (l ++ [a]).Nodup := by
  simp [List.nodup_append, hl, ha]

/-- Membership decomposition of an updated table: every row of the result
is an untouched old row, or the patch applied to the old row carrying the
updated id. -/
theorem mem_updateScan {st : Store} {id : String} {p : UpdateScanInput}
    {n : Nat} {r' : ScanRow} (h : r' ∈ (updateScan st id p n).1) :
    ∃ r0 ∈ st, r' = r0 ∨ (r0.id = id ∧ r' = applyPatch r0 p n) := by
  by_cases hp : p.isEmpty
  · rw [updateScan_fst_of_empty hp] at h
    exact ⟨r', h, Or.inl rfl⟩
  · rw [updateScan_fst_of_not_empty hp] at h
    obtain ⟨r0, hr0, hmap⟩ := List.mem_map.mp h
    by_cases hid : r0.id = id
    · exact ⟨r0, hr0, Or.inr ⟨hid, by rw [← hmap, if_pos hid]⟩⟩
    · exact ⟨r0, hr0, Or.inl (by rw [← hmap, if_neg hid])⟩

/-- The per-scan sync operation either leaves the table untouched, or
writes the progress patch to a live scan it found. -/
theorem syncOne_store_cases (store : Store) (id : String)
    (query : QueryOracle) (now : Nat) :
    (syncOne store id query now).store = store ∨
    ∃ row wf p, getScan store id = some row ∧ row.workflow_id = some wf ∧
      ¬(row.status = Status.completed ∨ row.status = Status.failed) ∧
      queryWorkflowProgress (query wf) = some p ∧
      (syncOne store id query now).store
        = (updateScan store row.id (progressPatch p) now).1 := by
  cases hget : getScan store id with
  | none => left; simp [syncOne, hget]
  | some row =>
    cases hwf : row.workflow_id with
    | none => left; simp [syncOne, hget, hwf]
    | some wf =>
      by_cases hterm : row.status = Status.completed ∨ row.status = Status.failed
      · left; simp [syncOne, hget, hwf, hterm]
      · cases hq : queryWorkflowProgress (query wf) with
        | none => left; simp [syncOne, hget, hwf, hterm, hq]
        | some p =>
          right
          refine ⟨row, wf, p, rfl, hwf, hterm, hq, ?_⟩
          simp [syncOne, hget, hwf, hterm, hq]

/-- A sync-all task never changes the id column. -/
theorem syncAllTask_ids {st st1 : Store} {row : ScanRow}
    {query : QueryOracle} {updateOk : String → Bool} {now : Nat}
    (h : syncAllTask st row query updateOk now = some st1) :
    st1.map ScanRow.id = st.map ScanRow.id := by
  rcases syncAllTask_cases st row query updateOk now with h0 | ⟨p, h0⟩ | h0
  · rw [h0] at h
    injection h with h
    rw [← h]
  · rw [h0] at h
    injection h with h
    rw [← h]
    exact updateScan_ids st row.id (progressPatch p) now
  · rw [h0] at h
    cases h

/-- The fan-out never changes the id column. -/
theorem runTasks_ids {query : QueryOracle} {updateOk : String → Bool}
    {now : Nat} :
    ∀ (rows : List ScanRow) (st : Store),
      (runTasks rows st query updateOk now).map ScanRow.id
        = st.map ScanRow.id := by
  intro rows
  induction rows with
  | nil => intro st; rfl
  | cons row0 rest ih =>
    intro st
    show (match syncAllTask st row0 query updateOk now with
      | some st1 => runTasks rest st1 query updateOk now
      | none => runTasks rest st query updateOk now).map ScanRow.id
        = st.map ScanRow.id
    cases h : syncAllTask st row0 query updateOk now with
    | some st1 => rw [ih st1, syncAllTask_ids h]
    | none => exact ih st

/-- Every row of a task result is an old row or carries a status written
from a progress answer. -/
theorem mem_syncAllTask_status {st st1 : Store} {row x : ScanRow}
    {query : QueryOracle} {updateOk : String → Bool} {now : Nat}
    (h : syncAllTask st row query updateOk now = some st1) (hx : x ∈ st1) :
    x ∈ st ∨ ∃ ps : ProgressStatus, x.status = ps.toStatus := by
  rcases syncAllTask_cases st row query updateOk now with h0 | ⟨p, h0⟩ | h0
  · rw [h0] at h
    injection h with h
    exact Or.inl (h ▸ hx)
  · rw [h0] at h
    injection h with h
    rw [← h] at hx
    obtain ⟨r0, hr0, hcase⟩ := mem_updateScan hx
    rcases hcase with rfl | ⟨_, rfl⟩
    · exact Or.inl hr0
    · exact Or.inr ⟨p.status, by simp [applyPatch, progressPatch]⟩
  · rw [h0] at h
    cases h

/-- Every row of a fan-out result is an old row or carries a status
written from a progress answer. -/
theorem mem_runTasks_status {query : QueryOracle} {updateOk : String → Bool}
    {now : Nat} :
    ∀ (rows : List ScanRow) (st : Store) (x : ScanRow),
      x ∈ runTasks rows st query updateOk now →
      x ∈ st ∨ ∃ ps : ProgressStatus, x.status = ps.toStatus := by
  intro rows
  induction rows with
  | nil => exact fun st x hx => Or.inl hx
  | cons row0 rest ih =>
    intro st x hx
    revert hx
    show x ∈ (match syncAllTask st row0 query updateOk now with
      | some st1 => runTasks rest st1 query updateOk now
      | none => runTasks rest st query updateOk now) → _
    cases h : syncAllTask st row0 query updateOk now with
    | some st1 =>
      intro hx
      rcases ih st1 x hx with hx1 | hps
      · exact mem_syncAllTask_status h hx1
      · exact Or.inr hps
    | none => exact fun hx => ih st x hx

/-- Under a fresh UUID, the create route either rejects the request with
the table untouched, or appends the pending row and immediately writes
the running patch (start succeeded) or the failed patch (start threw) to
it. -/
theorem createRoute_store_cases (store : Store) (targetUrl repoPath : String)
    (configPath : Option String) (freshId : String)
    (startResult : Except String String) (now1 now2 : Nat)
    (hfresh : freshId ∉ store.map ScanRow.id) :
    (createRoute store targetUrl repoPath configPath freshId startResult
        now1 now2).1 = store ∨
    ∃ (input : CreateScanInput) (p : UpdateScanInput),
      ((∃ w, p = runningPatch w) ∨ (∃ e, p = failedPatch e)) ∧
      (createRoute store targetUrl repoPath configPath freshId startResult
          now1 now2).1
        = (updateScan (store ++ [newScanRow freshId now1 input]) freshId p
            now2).1 := by
  by_cases hcond : targetUrl = "" ∨ repoPath = ""
  · left; simp [createRoute, hcond]
  · right
    set input : CreateScanInput :=
      { targetUrl := targetUrl, repoPath := repoPath,
        configPath := match configPath with | some "" => none | c => c }
      with hinput
    have hcreate : createScan store freshId now1 input
        = (store ++ [newScanRow freshId now1 input],
           newScanRow freshId now1 input) := createScan_of_fresh hfresh now1 input
    cases startResult with
    | ok w =>
      refine ⟨input, runningPatch w, Or.inl ⟨w, rfl⟩, ?_⟩
      simp only [createRoute, if_neg hcond, ← hinput, hcreate]
      rfl
    | error e =>
      refine ⟨input, failedPatch e, Or.inr ⟨e, rfl⟩, ?_⟩
      simp only [createRoute, if_neg hcond, ← hinput, hcreate]
      rfl

/-- The structural invariant is preserved by every exposed operation. -/
theorem storeInv_step {s : Store} (hinv : StoreInv s) (op : Op)
    (hop : opOk s op) : StoreInv (stepStore s op) := by
  obtain ⟨hnd, hpend⟩ := hinv
  cases op with
  | getOp id => exact ⟨hnd, hpend⟩
  | listOp => exact ⟨hnd, hpend⟩
  | createOp targetUrl repoPath configPath freshId startResult now1 now2 =>
    have hfresh : freshId ∉ s.map ScanRow.id := hop
    rcases createRoute_store_cases s targetUrl repoPath configPath freshId
        startResult now1 now2 hfresh with hsame | ⟨input, p, hpshape, heq⟩
    · show StoreInv (createRoute s targetUrl repoPath configPath freshId
        startResult now1 now2).1
      rw [hsame]; exact ⟨hnd, hpend⟩
    · show StoreInv (createRoute s targetUrl repoPath configPath freshId
        startResult now1 now2).1
      rw [heq]
      constructor
      · rw [updateScan_ids]
        simp only [List.map_append, List.map_cons, List.map_nil]
        exact nodup_append_singleton hnd hfresh
      · intro r' hr' hrp
        obtain ⟨r0, hr0, hcase⟩ := mem_updateScan hr'
        rcases hcase with rfl | ⟨_, rfl⟩
        · rcases List.mem_append.mp hr0 with h0 | h0
          · exact hpend r' h0 hrp
          · rcases List.mem_singleton.mp h0 with rfl
            rfl
        · exfalso
          rcases hpshape with ⟨w, rfl⟩ | ⟨e, rfl⟩
          · simp [applyPatch, runningPatch] at hrp
          · simp [applyPatch, failedPatch] at hrp
  | syncOneOp id query now =>
    rcases syncOne_store_cases s id query now with hsame |
        ⟨row, wf, p, hget, hwf, hterm, hq, heq⟩
    · show StoreInv (syncOne s id query now).store
      rw [hsame]; exact ⟨hnd, hpend⟩
    · show StoreInv (syncOne s id query now).store
      rw [heq]
      constructor
      · rw [updateScan_ids]; exact hnd
      · intro r' hr' hrp
        obtain ⟨r0, hr0, hcase⟩ := mem_updateScan hr'
        rcases hcase with rfl | ⟨_, rfl⟩
        · exact hpend r' hr0 hrp
        · exfalso
          cases hps : p.status <;>
            simp [applyPatch, progressPatch, hps, ProgressStatus.toStatus] at hrp
  | syncAllOp query updateOk now =>
    constructor
    · show ((syncAll s query updateOk now).1.map ScanRow.id).Nodup
      have : (syncAll s query updateOk now).1
          = runTasks ((listScans s).filter isEligible) s query updateOk now := rfl
      rw [this, runTasks_ids]
      exact hnd
    · intro r' hr' hrp
      have hx : r' ∈ runTasks ((listScans s).filter isEligible) s query
          updateOk now := hr'
      rcases mem_runTasks_status _ s r' hx with h0 | ⟨ps, hps⟩
      · exact hpend r' h0 hrp
      · exfalso
        cases ps <;> simp [ProgressStatus.toStatus, hps] at hrp

/-- Every reachable table satisfies the structural invariant. -/
theorem reachable_inv {s : Store} (hs : Reachable s) : StoreInv s := by
  induction hs with
  | init => exact ⟨List.nodup_nil, fun r hr => absurd hr (List.not_mem_nil r)⟩
  | next op hprev hok ih => exact storeInv_step ih op hok

/-- Along the sync-all fan-out, a row either survives untouched or — when
its id belongs to one of the fanned-out rows, all of which start the
operation in status `running` — carries a status written from a progress
answer. -/
theorem runTasks_transition {s0 : Store} (hnd : (s0.map ScanRow.id).Nodup)
    {query : QueryOracle} {updateOk : String → Bool} {now : Nat} :
    ∀ (rows : List ScanRow),
      (∀ row ∈ rows, row ∈ s0 ∧ row.status = Status.running) →
      ∀ (st : Store),
        (∀ r ∈ s0, ∀ x ∈ st, x.id = r.id →
          (x = r ∨ (r.status = Status.running ∧
            ∃ ps : ProgressStatus, x.status = ps.toStatus))) →
        ∀ r ∈ s0, ∀ x ∈ runTasks rows st query updateOk now, x.id = r.id →
          (x = r ∨ (r.status = Status.running ∧
            ∃ ps : ProgressStatus, x.status = ps.toStatus)) := by
  intro rows
  induction rows with
  | nil => exact fun _ st hst => hst
  | cons row0 rest ih =>
    intro hrows st hst r hr x hx hxid
    have hrows' : ∀ row ∈ rest, row ∈ s0 ∧ row.status = Status.running :=
      fun row hrow => hrows row (List.mem_cons_of_mem _ hrow)
    have hrow0 := hrows row0 (List.mem_cons_self _ _)
    revert hx
    show x ∈ (match syncAllTask st row0 query updateOk now with
      | some st1 => runTasks rest st1 query updateOk now
      | none => runTasks rest st query updateOk now) → _
    cases h : syncAllTask st row0 query updateOk now with
    | none => exact fun hx => ih hrows' st hst r hr x hx hxid
    | some st1 =>
      intro hx
      refine ih hrows' st1 ?_ r hr x hx hxid
      intro r2 hr2 x2 hx2 hx2id
      rcases syncAllTask_cases st row0 query updateOk now with h0 | ⟨p, h0⟩ | h0
      · rw [h0] at h
        injection h with h
        exact hst r2 hr2 x2 (h ▸ hx2) hx2id
      · rw [h0] at h
        injection h with h
        rw [← h] at hx2
        obtain ⟨r0, hr0, hcase⟩ := mem_updateScan hx2
        rcases hcase with rfl | ⟨hid0, rfl⟩
        · exact hst r2 hr2 _ hr0 hx2id
        · right
          have hr2row0 : r2 = row0 := by
            apply nodup_id_unique hnd hr2 hrow0.1
            rw [← hx2id, applyPatch_id, hid0]
          refine ⟨hr2row0 ▸ hrow0.2, p.status, ?_⟩
          simp [applyPatch, progressPatch]
      · rw [h0] at h
        cases h

/-- One exposed operation moves every pre-existing scan along the allowed
transition relation. -/
theorem step_allowed {s : Store} (hinv : StoreInv s) (op : Op)
    (hop : opOk s op) {r r' : ScanRow} (hr : r ∈ s)
    (hr' : r' ∈ stepStore s op) (hid : r'.id = r.id) :
    allowedTransition r.status r'.status := by
  obtain ⟨hnd, hpend⟩ := hinv
  cases op with
  | getOp id =>
    exact Or.inl (congrArg ScanRow.status (nodup_id_unique hnd hr hr' hid.symm))
  | listOp =>
    exact Or.inl (congrArg ScanRow.status (nodup_id_unique hnd hr hr' hid.symm))
  | createOp targetUrl repoPath configPath freshId startResult now1 now2 =>
    have hfresh : freshId ∉ s.map ScanRow.id := hop
    rcases createRoute_store_cases s targetUrl repoPath configPath freshId
        startResult now1 now2 hfresh with hsame | ⟨input, p, hpshape, heq⟩
    · have hr'2 : r' ∈ s := by
        have : r' ∈ (createRoute s targetUrl repoPath configPath freshId
            startResult now1 now2).1 := hr'
        rwa [hsame] at this
      exact Or.inl (congrArg ScanRow.status (nodup_id_unique hnd hr hr'2 hid.symm))
    · have hr'2 : r' ∈ (updateScan (s ++ [newScanRow freshId now1 input])
          freshId p now2).1 := by
        have : r' ∈ (createRoute s targetUrl repoPath configPath freshId
            startResult now1 now2).1 := hr'
        rwa [heq] at this
      have hrid : r.id ∈ s.map ScanRow.id := List.mem_map_of_mem ScanRow.id hr
      obtain ⟨r0, hr0, hcase⟩ := mem_updateScan hr'2
      rcases hcase with rfl | ⟨hid0, rfl⟩
      · rcases List.mem_append.mp hr0 with h0 | h0
        · exact Or.inl (congrArg ScanRow.status (nodup_id_unique hnd hr h0 hid.symm))
        · exfalso
          rcases List.mem_singleton.mp h0 with rfl
          have hfid : freshId = r.id := hid
          exact hfresh (hfid ▸ hrid)
      · exfalso
        apply hfresh
        have : r.id = freshId := by rw [← hid, applyPatch_id, hid0]
        exact this ▸ hrid
  | syncOneOp id query now =>
    rcases syncOne_store_cases s id query now with hsame |
        ⟨row, wf, p, hget, hwf, hterm, hq, heq⟩
    · have hr'2 : r' ∈ s := by
        have : r' ∈ (syncOne s id query now).store := hr'
        rwa [hsame] at this
      exact Or.inl (congrArg ScanRow.status (nodup_id_unique hnd hr hr'2 hid.symm))
    · have hr'2 : r' ∈ (updateScan s row.id (progressPatch p) now).1 := by
        have : r' ∈ (syncOne s id query now).store := hr'
        rwa [heq] at this
      have hrowmem : row ∈ s := getScan_mem hget
      obtain ⟨r0, hr0, hcase⟩ := mem_updateScan hr'2
      rcases hcase with rfl | ⟨hid0, rfl⟩
      · exact Or.inl (congrArg ScanRow.status (nodup_id_unique hnd hr hr0 hid.symm))
      · have hrrow : r = row := by
          apply nodup_id_unique hnd hr hrowmem
          rw [← hid, applyPatch_id, hid0]
        have hrun : row.status = Status.running := by
          cases hst : row.status with
          | pending => exact absurd (hwf ▸ hpend row hrowmem hst) (by simp)
          | running => rfl
          | completed => exact absurd (Or.inl hst) hterm
          | failed => exact absurd (Or.inr hst) hterm
        have hstat : (applyPatch r0 (progressPatch p) now).status
            = p.status.toStatus := by simp [applyPatch, progressPatch]
        rw [hrrow, hstat, hrun]
        cases p.status with
        | running => exact Or.inl rfl
        | completed => exact Or.inr (Or.inr ⟨rfl, Or.inl rfl⟩)
        | failed => exact Or.inr (Or.inr ⟨rfl, Or.inr rfl⟩)
  | syncAllOp query updateOk now =>
    have hx : r' ∈ runTasks ((listScans s).filter isEligible) s query
        updateOk now := hr'
    have hrows : ∀ row ∈ (listScans s).filter isEligible,
        row ∈ s ∧ row.status = Status.running := by
      intro row hrow
      have hmem : row ∈ s :=
        (listScans_perm s).mem_iff.mp (List.mem_of_mem_filter hrow)
      have helig : isEligible row = true := List.of_mem_filter hrow
      have hrun : row.status = Status.running := by
        have := (Bool.and_eq_true _ _).mp helig
        exact of_decide_eq_true this.1
      exact ⟨hmem, hrun⟩
    have hbase : ∀ r2 ∈ s, ∀ x ∈ s, x.id = r2.id →
        (x = r2 ∨ (r2.status = Status.running ∧
          ∃ ps : ProgressStatus, x.status = ps.toStatus)) :=
      fun r2 hr2 x hx2 hx2id => Or.inl (nodup_id_unique hnd hx2 hr2 hx2id)
    rcases runTasks_transition hnd _ hrows s hbase r hr r' hx hid with rfl | ⟨hrun, ps, hps⟩
    · exact Or.inl rfl
    · rw [hrun, hps]
      cases ps with
      | running => exact Or.inl rfl
      | completed => exact Or.inr (Or.inr ⟨rfl, Or.inl rfl⟩)
      | failed => exact Or.inr (Or.inr ⟨rfl, Or.inr rfl⟩)

/-- C3: for every scan present in a table reachable through the exposed
operations, one further exposed operation only ever moves its status along
`pending → running`, `pending → failed`, `running → completed`,
`running → failed` (or leaves it unchanged); in particular no operation
moves a scan out of `completed` or `failed`, and no operation sets a
status back to `pending`. -/
theorem statusTransitions {s : Store} (hs : Reachable s) (op : Op)
    (hop : opOk s op) {r r' : ScanRow} (hr : r ∈ s)
    (hr' : r' ∈ stepStore s op) (hid : r'.id = r.id) :
    allowedTransition r.status r'.status ∧
    (r.status = Status.completed → r'.status = Status.completed) ∧
    (r.status = Status.failed → r'.status = Status.failed) ∧
    (r'.status = Status.pending → r.status = Status.pending) := by
  have h := step_allowed (reachable_inv hs) op hop hr hr' hid
  refine ⟨h, ?_, ?_, ?_⟩ <;> intro hx <;>
    rcases h with h | ⟨h1, h2⟩ | ⟨h1, h2⟩ <;> simp_all

/-- The create operation of the C3 witness run. -/
def witnessCreateOp : Op :=
  Op.createOp "https://example.com" "repo" none "scan-1" (Except.ok "wf-1") 1 2

/-- The running row the witness create operation produces. -/
def witnessRunningRow : ScanRow :=
  applyPatch (newScanRow "scan-1" 1
      { targetUrl := "https://example.com", repoPath := "repo",
        configPath := none })
    (runningPatch "wf-1") 2

/-- The sync operation of the C3 witness run. -/
def witnessSyncOp : Op := Op.syncOneOp "scan-1" okOracle 9

/-- The completed row the witness sync operation produces. -/
def witnessSyncedRow : ScanRow :=
  applyPatch witnessRunningRow (progressPatch sampleProgress) 9

/-- Witness for C3: a reachable one-scan table whose scan moves
`running → completed` under a sync operation. -/
theorem statusTransitions_witness :
    allowedTransition witnessRunningRow.status witnessSyncedRow.status ∧
    (witnessRunningRow.status = Status.completed →
      witnessSyncedRow.status = Status.completed) ∧
    (witnessRunningRow.status = Status.failed →
      witnessSyncedRow.status = Status.failed) ∧
    (witnessSyncedRow.status = Status.pending →
      witnessRunningRow.status = Status.pending) :=
  statusTransitions
    (Reachable.next witnessCreateOp Reachable.init
      (by show ("scan-1" : String) ∉ List.map ScanRow.id []; simp))
    witnessSyncOp (by show True; trivial) (by decide) (by decide) (by decide)

/-! ## Connection-lifecycle lemmas (C1) -/

/-- A batch of concurrent invocations of `getTemporalClient`. -/
def callsOf (cs : List Nat) : List TCEvent := cs.map TCEvent.call

/-- A delivered result stays delivered through every event. -/
theorem tcStep_delivered_mono (s : ClientState) (e : TCEvent)
    {x : Nat × Except Unit Nat} (hx : x ∈ s.delivered) :
    x ∈ (tcStep s e).delivered := by
  cases e with
  | call c =>
    cases hc : s.client with
    | some k =>
      simp only [tcStep, hc]
      exact List.mem_cons_of_mem _ hx
    | none =>
      cases hcn : s.connecting with
      | some a => simp only [tcStep, hc, hcn]; exact hx
      | none => simp only [tcStep, hc, hcn]; exact hx
  | connectOk =>
    cases hcn : s.connecting with
    | none => simp only [tcStep, hcn]; exact hx
    | some a =>
      simp only [tcStep, hcn]
      exact List.mem_append_right _ hx
  | connectFail =>
    cases hcn : s.connecting with
    | none => simp only [tcStep, hcn]; exact hx
    | some a =>
      simp only [tcStep, hcn]
      exact List.mem_append_right _ hx
  | close =>
    cases hc : s.connection with
    | none => simp only [tcStep, hc]; exact hx
    | some k => simp only [tcStep, hc]; exact hx

/-- A delivered result stays delivered through every event sequence. -/
theorem tcRun_delivered_mono :
    ∀ (evs : List TCEvent) (s : ClientState) {x : Nat × Except Unit Nat},
      x ∈ s.delivered → x ∈ (tcRun s evs).delivered := by
  intro evs
  induction evs with
  | nil => exact fun s _ hx => hx
  | cons e rest ih => exact fun s _ hx => ih _ (tcStep_delivered_mono s e hx)

/-- Callers arriving while an attempt is in flight and no client is cached
all join that same attempt: no new connect is performed, the in-flight slot
is unchanged, and every arriving caller waits on the existing attempt. -/
theorem callsWhileConnecting :
    ∀ (cs : List Nat) (s : ClientState) (a : Nat),
      s.client = none → s.connecting = some a →
      (tcRun s (callsOf cs)).client = none ∧
      (tcRun s (callsOf cs)).connecting = some a ∧
      (tcRun s (callsOf cs)).connectCount = s.connectCount ∧
      (tcRun s (callsOf cs)).nextId = s.nextId ∧
      (∀ c ∈ cs, (c, a) ∈ (tcRun s (callsOf cs)).waiters) ∧
      (∀ w ∈ s.waiters, w ∈ (tcRun s (callsOf cs)).waiters) := by
  intro cs
  induction cs with
  | nil =>
    intro s a hc hcn
    exact ⟨hc, hcn, rfl, rfl, fun c hc => absurd hc (List.not_mem_nil c),
      fun w hw => hw⟩
  | cons c0 rest ih =>
    intro s a hc hcn
    have hstep : tcStep s (TCEvent.call c0)
        = { s with waiters := (c0, a) :: s.waiters } := by
      simp [tcStep, hc, hcn]
    have hrun : tcRun s (callsOf (c0 :: rest))
        = tcRun { s with waiters := (c0, a) :: s.waiters } (callsOf rest) := by
      simp only [callsOf, List.map_cons, tcRun, hstep]
    obtain ⟨h1, h2, h3, h4, h5, h6⟩ :=
      ih { s with waiters := (c0, a) :: s.waiters } a hc hcn
    refine ⟨hrun ▸ h1, hrun ▸ h2, hrun ▸ h3, hrun ▸ h4, ?_, ?_⟩
    · intro c hcmem
      rcases List.mem_cons.mp hcmem with rfl | hcmem'
      · exact hrun ▸ h6 (c, a) (List.mem_cons_self _ _)
      · exact hrun ▸ h5 c hcmem'
    · intro w hw
      exact hrun ▸ h6 w (List.mem_cons_of_mem _ hw)

/-- Once a client is cached and no attempt is in flight, every further
event sequence without a close keeps the cached client, performs no
connect, and serves every caller the cached client. -/
theorem cachedStable :
    ∀ (evs : List TCEvent) (s : ClientState) (k : Nat),
      s.client = some k → s.connecting = none → TCEvent.close ∉ evs →
      (tcRun s evs).client = some k ∧
      (tcRun s evs).connecting = none ∧
      (tcRun s evs).connectCount = s.connectCount ∧
      ∀ c, TCEvent.call c ∈ evs →
        (c, Except.ok k) ∈ (tcRun s evs).delivered := by
  intro evs
  induction evs with
  | nil =>
    intro s k hc hcn _
    exact ⟨hc, hcn, rfl, fun c hc => absurd hc (List.not_mem_nil _)⟩
  | cons e rest ih =>
    intro s k hc hcn hnoclose
    have hnoclose' : TCEvent.close ∉ rest :=
      fun h => hnoclose (List.mem_cons_of_mem _ h)
    have hne : e ≠ TCEvent.close :=
      fun h => hnoclose (h ▸ List.mem_cons_self _ _)
    cases e with
    | close => exact absurd rfl hne
    | call c =>
      have hstep : tcStep s (TCEvent.call c)
          = { s with delivered := (c, Except.ok k) :: s.delivered } := by
        simp [tcStep, hc]
      have hrun : tcRun s (TCEvent.call c :: rest)
          = tcRun { s with delivered := (c, Except.ok k) :: s.delivered }
              rest := by
        simp only [tcRun, hstep]
      obtain ⟨h1, h2, h3, h4⟩ :=
        ih { s with delivered := (c, Except.ok k) :: s.delivered } k hc hcn
          hnoclose'
      refine ⟨hrun ▸ h1, hrun ▸ h2, hrun ▸ h3, ?_⟩
      intro c2 hc2
      rcases List.mem_cons.mp hc2 with heq | hc2'
      · obtain rfl : c2 = c := by injection heq
        refine hrun ▸ tcRun_delivered_mono rest _ ?_
        exact List.mem_cons_self _ _
      · exact hrun ▸ h4 c2 hc2'
    | connectOk =>
      have hstep : tcStep s TCEvent.connectOk = s := by simp [tcStep, hcn]
      have hrun : tcRun s (TCEvent.connectOk :: rest) = tcRun s rest := by
        simp only [tcRun, hstep]
      obtain ⟨h1, h2, h3, h4⟩ := ih s k hc hcn hnoclose'
      refine ⟨hrun ▸ h1, hrun ▸ h2, hrun ▸ h3, ?_⟩
      intro c2 hc2
      rcases List.mem_cons.mp hc2 with heq | hc2'
      · cases heq
      · exact hrun ▸ h4 c2 hc2'
    | connectFail =>
      have hstep : tcStep s TCEvent.connectFail = s := by simp [tcStep, hcn]
      have hrun : tcRun s (TCEvent.connectFail :: rest) = tcRun s rest := by
        simp only [tcRun, hstep]
      obtain ⟨h1, h2, h3, h4⟩ := ih s k hc hcn hnoclose'
      refine ⟨hrun ▸ h1, hrun ▸ h2, hrun ▸ h3, ?_⟩
      intro c2 hc2
      rcases List.mem_cons.mp hc2 with heq | hc2'
      · cases heq
      · exact hrun ▸ h4 c2 hc2'

/-- C1: the lazy connection of the orchestrator client.
(i) When any number of callers invoke `getTemporalClient` while no client
is cached and no attempt is in flight, exactly one underlying connect is
performed and every caller awaits that same single in-flight attempt.
(ii) When the attempt succeeds, the client is cached and every waiting
caller receives it.  (iii) Once cached, the client is kept process-wide
through every further close-free event sequence: no further connect is
performed and every later caller is served the cached client.  (iv) When
the attempt fails, the cached state reverts to unconnected (`client` and
`connection` null, in-flight slot cleared), every caller waiting on the
failed attempt receives the failure, and the next call retries with a
fresh connect. -/
theorem temporalClient_connection_lifecycle :
    (∀ (s : ClientState) (cs : List Nat), s.client = none →
      s.connecting = none → cs ≠ [] →
      (tcRun s (callsOf cs)).connectCount = s.connectCount + 1 ∧
      (tcRun s (callsOf cs)).connecting = some s.nextId ∧
      (tcRun s (callsOf cs)).client = none ∧
      ∀ c ∈ cs, (c, s.nextId) ∈ (tcRun s (callsOf cs)).waiters) ∧
    (∀ (s : ClientState) (a : Nat), s.connecting = some a →
      (tcStep s TCEvent.connectOk).client = some s.nextId ∧
      (tcStep s TCEvent.connectOk).connection = some s.nextId ∧
      (tcStep s TCEvent.connectOk).connecting = none ∧
      (tcStep s TCEvent.connectOk).connectCount = s.connectCount ∧
      ∀ w ∈ s.waiters,
        (w.1, Except.ok s.nextId) ∈ (tcStep s TCEvent.connectOk).delivered) ∧
    (∀ (s : ClientState) (k : Nat) (evs : List TCEvent), s.client = some k →
      s.connecting = none → TCEvent.close ∉ evs →
      (tcRun s evs).client = some k ∧
      (tcRun s evs).connectCount = s.connectCount ∧
      ∀ c, TCEvent.call c ∈ evs →
        (c, Except.ok k) ∈ (tcRun s evs).delivered) ∧
    (∀ (s : ClientState) (a : Nat), s.connecting = some a →
      (tcStep s TCEvent.connectFail).client = none ∧
      (tcStep s TCEvent.connectFail).connection = none ∧
      (tcStep s TCEvent.connectFail).connecting = none ∧
      (∀ w ∈ s.waiters,
        (w.1, Except.error ()) ∈ (tcStep s TCEvent.connectFail).delivered) ∧
      ∀ c : Nat,
        (tcStep (tcStep s TCEvent.connectFail)
            (TCEvent.call c)).connectCount = s.connectCount + 1 ∧
        (tcStep (tcStep s TCEvent.connectFail) (TCEvent.call c)).connecting
          = some (tcStep s TCEvent.connectFail).nextId) := by
  refine ⟨?_, ?_, ?_, ?_⟩
  · intro s cs hc hcn hne
    cases cs with
    | nil => exact absurd rfl hne
    | cons c0 rest =>
      have hstep : tcStep s (TCEvent.call c0)
          = { s with connecting := some s.nextId, nextId := s.nextId + 1,
                     connectCount := s.connectCount + 1,
                     waiters := (c0, s.nextId) :: s.waiters } := by
        simp [tcStep, hc, hcn]
      have hrun : tcRun s (callsOf (c0 :: rest))
          = tcRun { s with connecting := some s.nextId, nextId := s.nextId + 1,
                           connectCount := s.connectCount + 1,
                           waiters := (c0, s.nextId) :: s.waiters }
              (callsOf rest) := by
        simp only [callsOf, List.map_cons, tcRun, hstep]
      obtain ⟨h1, h2, h3, h4, h5, h6⟩ :=
        callsWhileConnecting rest
          { s with connecting := some s.nextId, nextId := s.nextId + 1,
                   connectCount := s.connectCount + 1,
                   waiters := (c0, s.nextId) :: s.waiters } s.nextId hc rfl
      refine ⟨hrun ▸ h3, hrun ▸ h2, hrun ▸ h1, ?_⟩
      intro c hcmem
      rcases List.mem_cons.mp hcmem with rfl | hcmem'
      · exact hrun ▸ h6 (c, s.nextId) (List.mem_cons_self _ _)
      · exact hrun ▸ h5 c hcmem'
  · intro s a hcn
    refine ⟨by simp [tcStep, hcn], by simp [tcStep, hcn], by simp [tcStep, hcn],
      by simp [tcStep, hcn], ?_⟩
    intro w hw
    simp only [tcStep, hcn]
    exact List.mem_append_left _ (List.mem_map_of_mem _ hw)
  · intro s k evs hc hcn hnoclose
    obtain ⟨h1, _, h3, h4⟩ := cachedStable evs s k hc hcn hnoclose
    exact ⟨h1, h3, h4⟩
  · intro s a hcn
    have hfail : tcStep s TCEvent.connectFail
        = { s with connection := none, client := none, connecting := none,
                   waiters := [],
                   delivered := s.waiters.map (fun w => (w.1, Except.error ()))
                     ++ s.delivered } := by
      simp [tcStep, hcn]
    refine ⟨by rw [hfail], by rw [hfail], by rw [hfail], ?_, ?_⟩
    · intro w hw
      rw [hfail]
      exact List.mem_append_left _ (List.mem_map_of_mem _ hw)
    · intro c
      rw [hfail]
      constructor <;> simp [tcStep]

/-- Witness for C1: two concurrent first-time callers share one connect;
after the attempt fails both receive the failure, the state reverts to
unconnected and a third call performs the retry connect; after a
successful attempt the cached client is served without reconnecting. -/
theorem temporalClient_connection_lifecycle_witness :
    (tcRun tcInit (callsOf [1, 2])).connectCount = tcInit.connectCount + 1 ∧
    ((1 : Nat), (0 : Nat)) ∈ (tcRun tcInit (callsOf [1, 2])).waiters ∧
    ((2 : Nat), (0 : Nat)) ∈ (tcRun tcInit (callsOf [1, 2])).waiters ∧
    (tcStep (tcRun tcInit (callsOf [1, 2])) TCEvent.connectFail).client
      = none ∧
    ((1 : Nat), Except.error ())
      ∈ (tcStep (tcRun tcInit (callsOf [1, 2]))
          TCEvent.connectFail).delivered ∧
    (tcStep (tcStep (tcRun tcInit (callsOf [1, 2])) TCEvent.connectFail)
        (TCEvent.call 3)).connectCount
      = (tcRun tcInit (callsOf [1, 2])).connectCount + 1 ∧
    (tcRun (tcStep (tcRun tcInit (callsOf [1, 2])) TCEvent.connectOk)
        [TCEvent.call 4]).connectCount
      = (tcStep (tcRun tcInit (callsOf [1, 2])) TCEvent.connectOk).connectCount :=
  ⟨(temporalClient_connection_lifecycle.1 tcInit [1, 2] rfl rfl
      (by simp)).1,
   (temporalClient_connection_lifecycle.1 tcInit [1, 2] rfl rfl
      (by simp)).2.2.2 1 (by simp),
   (temporalClient_connection_lifecycle.1 tcInit [1, 2] rfl rfl
      (by simp)).2.2.2 2 (by simp),
   (temporalClient_connection_lifecycle.2.2.2 (tcRun tcInit (callsOf [1, 2]))
      0 rfl).1,
   (temporalClient_connection_lifecycle.2.2.2 (tcRun tcInit (callsOf [1, 2]))
      0 rfl).2.2.2.1 (1, 0) (by simp [tcRun, tcStep, tcInit, callsOf]),
   ((temporalClient_connection_lifecycle.2.2.2 (tcRun tcInit (callsOf [1, 2]))
      0 rfl).2.2.2.2 3).1,
   (temporalClient_connection_lifecycle.2.2.1
      (tcStep (tcRun tcInit (callsOf [1, 2])) TCEvent.connectOk) 1
      [TCEvent.call 4] rfl rfl (by simp)).2.1⟩

/-! ## Ordering of list() (C8) -/

theorem pairwise_insertDesc {x : ScanRow} {l : List ScanRow}
    (hl : l.Pairwise (fun a b => b.created_at ≤ a.created_at)) :
    (insertDesc x l).Pairwise (fun a b => b.created_at ≤ a.created_at) := by
  induction l with
  | nil => simp [insertDesc]
  | cons y ys ih =>
    rcases List.pairwise_cons.mp hl with ⟨hy, hys⟩
    by_cases h : x.created_at < y.created_at
    · simp only [insertDesc, if_pos h]
      refine List.pairwise_cons.mpr ⟨?_, ih hys⟩
      intro b hb
      rcases mem_insertDesc.mp hb with rfl | hb2
      · exact le_of_lt h
      · exact hy b hb2
    · simp only [insertDesc, if_neg h]
      refine List.pairwise_cons.mpr ⟨?_, hl⟩
      intro b hb
      rcases List.mem_cons.mp hb with rfl | hb2
      · exact le_of_not_lt h
      · exact le_trans (hy b hb2) (le_of_not_lt h)

theorem listScans_sorted (s : Store) :
    (listScans s).Pairwise (fun a b => b.created_at ≤ a.created_at) := by
  induction s with
  | nil => simp [listScans]
  | cons r t ih => exact pairwise_insertDesc ih

theorem filter_insertDesc (t : Nat) (x : ScanRow) (l : List ScanRow) :
    (insertDesc x l).filter (fun r => decide (r.created_at = t))
      = if x.created_at = t
        then x :: l.filter (fun r => decide (r.created_at = t))
        else l.filter (fun r => decide (r.created_at = t)) := by
  induction l with
  | nil =>
    by_cases hx : x.created_at = t <;> simp [insertDesc, List.filter, hx]
  | cons y ys ih =>
    by_cases h : x.created_at < y.created_at
    · have hy : ¬ (x.created_at = t ∧ y.created_at = t) := by
        rintro ⟨rfl, hyt⟩
        exact absurd hyt (Nat.ne_of_gt h)
      simp only [insertDesc, if_pos h]
      by_cases hx : x.created_at = t
      · have hyt : ¬ y.created_at = t := fun hyt => hy ⟨hx, hyt⟩
        simp [List.filter, hx, hyt, ih]
      · by_cases hyt : y.created_at = t <;> simp [List.filter, hx, hyt, ih]
    · simp only [insertDesc, if_neg h]
      by_cases hx : x.created_at = t <;>
        by_cases hyt : y.created_at = t <;> simp [List.filter, hx, hyt]

theorem listScans_filter_stable (s : Store) (t : Nat) :
    (listScans s).filter (fun r => decide (r.created_at = t))
      = s.filter (fun r => decide (r.created_at = t)) := by
  induction s with
  | nil => rfl
  | cons r rest ih =>
    show (insertDesc r (listScans rest)).filter _ = _
    rw [filter_insertDesc]
    by_cases h : r.created_at = t <;> simp [List.filter, h, ih]

/-- Two rows created in the same instant; `tieRowB` is inserted more
recently (larger rowid). -/
def tieRowA : ScanRow := { baseRow with id := "tie-A" }

/-- See `tieRowA`. -/
def tieRowB : ScanRow := { baseRow with id := "tie-B" }

/-- C8 (counterexample): on a table holding two scans with equal
`created_at` where `tieRowB` was inserted more recently, `listScans`
returns the earlier-inserted `tieRowA` first — not, as claimed, the more
recently inserted scan first.  (The embedded order of equal keys is the
scan order of SQLite's stable in-memory sort, which is insertion order
oldest first; the SQL `ORDER BY created_at DESC` itself guarantees no tie
order at all, and in no reading does it put the newest insertion
first.) -/
theorem listScans_tie_counterexample :
    tieRowA.created_at = tieRowB.created_at ∧
    listScans [tieRowA, tieRowB] = [tieRowA, tieRowB] ∧
    listScans [tieRowA, tieRowB] ≠ [tieRowB, tieRowA] := by
  refine ⟨rfl, rfl, ?_⟩
  decide

/-- C8 (amended): `listScans` returns all stored scans (a permutation of
the table), ordered by `created_at` descending; scans with equal
`created_at` appear in insertion order, earliest-inserted first (the SQL
contract itself leaves the order of equal keys unspecified). -/
theorem listScans_ordering (s : Store) :
    (listScans s).Perm s ∧
    (listScans s).Pairwise (fun a b => b.created_at ≤ a.created_at) ∧
    ∀ t : Nat, (listScans s).filter (fun r => decide (r.created_at = t))
      = s.filter (fun r => decide (r.created_at = t)) :=
  ⟨listScans_perm s, listScans_sorted s, fun t => listScans_filter_stable s t⟩

end Shannon
